import Mathlib

/- Shallow embedding of the Catt LSP diagnostic subsystem: the lexer
   (`tokenize`) and the heuristic syntax/semantic validator
   (`validateSyntax`), translated from the TypeScript source.

   JavaScript arrays used as stacks (push/pop at the end) are modelled as
   Lean lists with the head as the stack top; the end-of-pass `forEach`
   over the array therefore corresponds to iterating the reversed list.
   JavaScript numbers holding small counters are modelled as `Nat` for
   cursors and `Int` for the paren/brace counters that are decremented.
   Loops are modelled with explicit fuel; every loop in the source advances
   its cursor by at least one token per iteration, so a fuel equal to the
   token count is always sufficient (proved below for the lexer). -/

namespace CattLsp

structure Position where
  line : Nat
  character : Nat
deriving DecidableEq

structure Range where
  start : Position
  «end» : Position
deriving DecidableEq

def DiagnosticSeverity.Error : Nat := 1

def DiagnosticSeverity.Warning : Nat := 2

def DiagnosticSeverity.Information : Nat := 3

def DiagnosticSeverity.Hint : Nat := 4

structure Diagnostic where
  range : Range
  severity : Nat
  source : String
  message : String
deriving DecidableEq

inductive TokenType where
  | KEYWORD
  | IDENTIFIER
  | NUMBER
  | STRING
  | OPERATOR
  | PUNCTUATION
  | UNKNOWN
deriving DecidableEq

structure Token where
  type : TokenType
  value : String
  position : Position
  length : Nat
deriving DecidableEq

/-- Keywords from grammar (the `keywords` set in the source). -/
def keywords : List String :=
  ["var", "return", "if", "else", "while", "for", "function",
   "true", "false", "null", "meow", "meowln"]

/-- Operators from grammar (the `operators` set in the source). -/
def operators : List String :=
  ["+", "-", "*", "/", "%", "==", "!=", "<", ">", "&&", "||", "!",
   "=", "[", "]", "(", ")", "\x7d", "\x7b", ";"]

def createDiagnostic (start «end» : Position) (message : String)
    (severity : Nat) : Diagnostic :=
  { range := { start := start, «end» := «end» },
    source := "Catt LSP",
    severity := severity,
    message := message }

/-- The JavaScript regex class `\s` (ECMAScript WhiteSpace and
    LineTerminator code points), on a single code point. -/
def isJsWhitespace (c : Char) : Bool :=
  c.toNat = 9 || c.toNat = 10 || c.toNat = 11 || c.toNat = 12 ||
  c.toNat = 13 || c.toNat = 32 || c.toNat = 160 || c.toNat = 5760 ||
  (8192 ≤ c.toNat && c.toNat ≤ 8202) || c.toNat = 8232 ||
  c.toNat = 8233 || c.toNat = 8239 || c.toNat = 8287 ||
  c.toNat = 12288 || c.toNat = 65279

/-- The regex class `[0-9]`. -/
def isDigitChar (c : Char) : Bool :=
  48 ≤ c.toNat && c.toNat ≤ 57

/-- The regex class `[a-zA-Z_]`. -/
def isIdentStartChar (c : Char) : Bool :=
  (97 ≤ c.toNat && c.toNat ≤ 122) || (65 ≤ c.toNat && c.toNat ≤ 90) ||
  c.toNat = 95

/-- The regex class `[a-zA-Z0-9_]`. -/
def isIdentContChar (c : Char) : Bool :=
  isIdentStartChar c || isDigitChar c

/-- One iteration of the `tokenize` while loop consumes at least one
    character, so the loop runs at most `content.length` times; the fuel
    argument counts the remaining permitted iterations. -/
def tokenizeAux : Nat → List Char → Nat → Nat → List Token
  | 0, _, _, _ => []
  | _ + 1, [], _, _ => []
  | fuel + 1, c :: cs, line, character =>
    if isJsWhitespace c then
      if c = '\n' then tokenizeAux fuel cs (line + 1) 0
      else tokenizeAux fuel cs line (character + 1)
    else if isDigitChar c then
      let value := (c :: cs).takeWhile isDigitChar
      let rest := (c :: cs).dropWhile isDigitChar
      { type := TokenType.NUMBER, value := String.mk value,
        position := ⟨line, character⟩, length := value.length }
        :: tokenizeAux fuel rest line (character + value.length)
    else if isIdentStartChar c then
      let value := (c :: cs).takeWhile isIdentContChar
      let rest := (c :: cs).dropWhile isIdentContChar
      let ty := if keywords.contains (String.mk value) then TokenType.KEYWORD
                else TokenType.IDENTIFIER
      { type := ty, value := String.mk value,
        position := ⟨line, character⟩, length := value.length }
        :: tokenizeAux fuel rest line (character + value.length)
    else if c = '"' then
      let body := cs.takeWhile (fun d => !(d = '"'))
      let rest₁ := cs.dropWhile (fun d => !(d = '"'))
      match rest₁ with
      | d :: rest₂ =>
        if d = '"' then
          let value := c :: (body ++ ['"'])
          { type := TokenType.STRING, value := String.mk value,
            position := ⟨line, character⟩, length := value.length }
            :: tokenizeAux fuel rest₂ line (character + value.length)
        else
          let value := c :: body
          { type := TokenType.STRING, value := String.mk value,
            position := ⟨line, character⟩, length := value.length }
            :: tokenizeAux fuel rest₁ line (character + value.length)
      | [] =>
        let value := c :: body
        { type := TokenType.STRING, value := String.mk value,
          position := ⟨line, character⟩, length := value.length }
          :: tokenizeAux fuel [] line (character + value.length)
    else if operators.contains (String.mk [c]) then
      match cs with
      | d :: rest₂ =>
        if operators.contains (String.mk [c, d]) then
          { type := TokenType.OPERATOR, value := String.mk [c, d],
            position := ⟨line, character⟩, length := 2 }
            :: tokenizeAux fuel rest₂ line (character + 2)
        else
          { type := TokenType.OPERATOR, value := String.mk [c],
            position := ⟨line, character⟩, length := 1 }
            :: tokenizeAux fuel cs line (character + 1)
      | [] =>
        { type := TokenType.OPERATOR, value := String.mk [c],
          position := ⟨line, character⟩, length := 1 }
          :: tokenizeAux fuel [] line (character + 1)
    else
      { type := TokenType.UNKNOWN, value := String.mk [c],
        position := ⟨line, character⟩, length := 1 }
        :: tokenizeAux fuel cs line (character + 1)

def tokenize (content : String) : List Token :=
  tokenizeAux content.data.length content.data 0 0

/-- A scan segment: either one skipped whitespace character or an emitted
    token. Used only to state the coverage property of the lexer. -/
inductive Seg where
  | ws (c : Char)
  | tok (t : Token)
deriving DecidableEq

/-- The characters a segment accounts for in the input. -/
def segChars : Seg → List Char
  | Seg.ws c => [c]
  | Seg.tok t => t.value.data

def segToken : Seg → Option Token
  | Seg.ws _ => none
  | Seg.tok t => some t

/-- `tokenizeAux` instrumented to also record each skipped whitespace
    character in place; branch for branch identical to `tokenizeAux`. -/
def scanSegsAux : Nat → List Char → Nat → Nat → List Seg
  | 0, _, _, _ => []
  | _ + 1, [], _, _ => []
  | fuel + 1, c :: cs, line, character =>
    if isJsWhitespace c then
      if c = '\n' then Seg.ws c :: scanSegsAux fuel cs (line + 1) 0
      else Seg.ws c :: scanSegsAux fuel cs line (character + 1)
    else if isDigitChar c then
      let value := (c :: cs).takeWhile isDigitChar
      let rest := (c :: cs).dropWhile isDigitChar
      Seg.tok { type := TokenType.NUMBER, value := String.mk value,
                position := ⟨line, character⟩, length := value.length }
        :: scanSegsAux fuel rest line (character + value.length)
    else if isIdentStartChar c then
      let value := (c :: cs).takeWhile isIdentContChar
      let rest := (c :: cs).dropWhile isIdentContChar
      let ty := if keywords.contains (String.mk value) then TokenType.KEYWORD
                else TokenType.IDENTIFIER
      Seg.tok { type := ty, value := String.mk value,
                position := ⟨line, character⟩, length := value.length }
        :: scanSegsAux fuel rest line (character + value.length)
    else if c = '"' then
      let body := cs.takeWhile (fun d => !(d = '"'))
      let rest₁ := cs.dropWhile (fun d => !(d = '"'))
      match rest₁ with
      | d :: rest₂ =>
        if d = '"' then
          let value := c :: (body ++ ['"'])
          Seg.tok { type := TokenType.STRING, value := String.mk value,
                    position := ⟨line, character⟩, length := value.length }
            :: scanSegsAux fuel rest₂ line (character + value.length)
        else
          let value := c :: body
          Seg.tok { type := TokenType.STRING, value := String.mk value,
                    position := ⟨line, character⟩, length := value.length }
            :: scanSegsAux fuel rest₁ line (character + value.length)
      | [] =>
        let value := c :: body
        Seg.tok { type := TokenType.STRING, value := String.mk value,
                  position := ⟨line, character⟩, length := value.length }
          :: scanSegsAux fuel [] line (character + value.length)
    else if operators.contains (String.mk [c]) then
      match cs with
      | d :: rest₂ =>
        if operators.contains (String.mk [c, d]) then
          Seg.tok { type := TokenType.OPERATOR, value := String.mk [c, d],
                    position := ⟨line, character⟩, length := 2 }
            :: scanSegsAux fuel rest₂ line (character + 2)
        else
          Seg.tok { type := TokenType.OPERATOR, value := String.mk [c],
                    position := ⟨line, character⟩, length := 1 }
            :: scanSegsAux fuel cs line (character + 1)
      | [] =>
        Seg.tok { type := TokenType.OPERATOR, value := String.mk [c],
                  position := ⟨line, character⟩, length := 1 }
          :: scanSegsAux fuel [] line (character + 1)
    else
      Seg.tok { type := TokenType.UNKNOWN, value := String.mk [c],
                position := ⟨line, character⟩, length := 1 }
        :: scanSegsAux fuel cs line (character + 1)

def scanSegs (content : String) : List Seg :=
  scanSegsAux content.data.length content.data 0 0

structure BlockContext where
  isIf : Bool
  startToken : Token
  startIndex : Nat
  braceCount : Int
deriving DecidableEq

/-- Mutable state of the `validateSyntax` while loop: the accumulated
    diagnostics, the declared-variable set (a JS `Set<string>`, modelled as
    a duplicate-free list), the block stack (head = top), and the cursor. -/
structure VState where
  diagnostics : List Diagnostic
  declaredVariables : List String
  blockStack : List BlockContext
  current : Nat
deriving DecidableEq

def createError (token : Token) (message : String) : Diagnostic :=
  createDiagnostic token.position
    ⟨token.position.line, token.position.character + token.length⟩
    message DiagnosticSeverity.Error

/-- `Set.add` on the declared-variable set. -/
def addVar (declared : List String) (v : String) : List String :=
  if declared.contains v then declared else v :: declared

/-- The balanced-parenthesis skip loop shared by the `meow`/`meowln`,
    `if`/`while`/`for` and `else if` cases:
    `while (current < tokens.length && parenCount > 0) {...}`.
    Returns the final cursor and paren count. Each iteration advances the
    cursor by one, so fuel `tokens.length` is always sufficient. -/
def skipParens (tokens : List Token) : Nat → Nat → Int → Nat × Int
  | 0, current, parenCount => (current, parenCount)
  | fuel + 1, current, parenCount =>
    if 0 < parenCount then
      match tokens[current]? with
      | none => (current, parenCount)
      | some t =>
        let p₁ := if t.value = "(" then parenCount + 1 else parenCount
        let p₂ := if t.value = ")" then p₁ - 1 else p₁
        skipParens tokens fuel (current + 1) p₂
    else (current, parenCount)

/-- The initializer-scanning loop of the `var` case:
    `while (current < tokens.length && tokens[current].value !== ";") {...}`,
    emitting an undefined-variable diagnostic for each identifier not in
    the declared set. Returns the emitted diagnostics and final cursor. -/
def scanVarInit (tokens : List Token) (declared : List String) :
    Nat → Nat → List Diagnostic × Nat
  | 0, current => ([], current)
  | fuel + 1, current =>
    match tokens[current]? with
    | none => ([], current)
    | some t =>
      if t.value = ";" then ([], current)
      else
        let r := scanVarInit tokens declared fuel (current + 1)
        if t.type = TokenType.IDENTIFIER ∧ ¬ declared.contains t.value then
          (createError t ("Undefined variable \"" ++ t.value ++ "\" in initialization") :: r.1,
           r.2)
        else r

/-- Shared block-opening check of the `else` case (source lines 442-457):
    require `\x7b` at cursor `c`, pushing a block with `isIf := false`;
    the `break` that follows falls through to the loop-bottom `current++`,
    hence the cursor lands at `c + 2` on success. -/
def elseBlockCheck (tokens : List Token) (st : VState) (token : Token)
    (c : Nat) : VState :=
  match tokens[c]? with
  | some tBrace =>
    if tBrace.value = "\x7b" then
      { st with blockStack := ⟨false, token, c, 1⟩ :: st.blockStack,
                current := c + 2 }
    else
      { st with
          diagnostics := st.diagnostics ++
            [createError tBrace "Expected block starting with \"\x7b\" for else statement"],
          current := c + 1 }
  | none =>
    { st with
        diagnostics := st.diagnostics ++
          [createError token "Expected block starting with \"\x7b\" for else statement"],
        current := c + 1 }

/-- The `case "var"` branch of the keyword switch. All of its paths end
    in `continue`, so the cursor is managed entirely inside the branch. -/
def varCase (tokens : List Token) (st : VState) (token : Token) : VState :=
  match tokens[st.current + 1]? with
  | none =>
    { st with
        diagnostics := st.diagnostics ++
          [createError token "var keyword must be followed by an identifier"],
        current := st.current + 1 }
  | some t₁ =>
    if t₁.type ≠ TokenType.IDENTIFIER then
      { st with
          diagnostics := st.diagnostics ++
            [createError token "var keyword must be followed by an identifier"],
          current := st.current + 1 }
    else
      match tokens[st.current + 2]? with
      | none =>
        { st with
            diagnostics := st.diagnostics ++
              [createError t₁ "var declaration requires initialization with '='"],
            current := st.current + 2 }
      | some t₂ =>
        if t₂.value ≠ "=" then
          { st with
              diagnostics := st.diagnostics ++
                [createError t₁ "var declaration requires initialization with '='"],
              current := st.current + 2 }
        else
          let declared := addVar st.declaredVariables t₁.value
          let scanned := scanVarInit tokens declared tokens.length (st.current + 3)
          match tokens[scanned.2]? with
          | some tSemi =>
            if tSemi.value = ";" then
              { st with
                  diagnostics := st.diagnostics ++ scanned.1,
                  declaredVariables := declared,
                  current := scanned.2 + 1 }
            else
              { st with
                  diagnostics := st.diagnostics ++ scanned.1 ++
                    [createError ((tokens[scanned.2 - 1]?).getD token)
                      "var declaration must end with semicolon"],
                  declaredVariables := declared,
                  current := scanned.2 }
          | none =>
            { st with
                diagnostics := st.diagnostics ++ scanned.1 ++
                  [createError ((tokens[scanned.2 - 1]?).getD token)
                    "var declaration must end with semicolon"],
                declaredVariables := declared,
                current := scanned.2 }

/-- The `case "meow"` / `case "meowln"` branch. Its success path ends in
    `break`, which falls through to the loop-bottom `current++`. -/
def meowCase (tokens : List Token) (st : VState) (token : Token) : VState :=
  match tokens[st.current + 1]? with
  | none =>
    { st with
        diagnostics := st.diagnostics ++
          [createError token
            ("Invalid " ++ token.value ++ " call. Expected \"(\" after \"" ++ token.value ++ "\"")],
        current := st.current + 1 }
  | some t₁ =>
    if t₁.value ≠ "(" then
      { st with
          diagnostics := st.diagnostics ++
            [createError token
              ("Invalid " ++ token.value ++ " call. Expected \"(\" after \"" ++ token.value ++ "\"")],
          current := st.current + 1 }
    else
      let skipped := skipParens tokens tokens.length (st.current + 2) 1
      if 0 < skipped.2 then
        { st with
            diagnostics := st.diagnostics ++
              [createError token ("Unclosed parenthesis in " ++ token.value ++ " call")],
            current := skipped.1 + 1 }
      else { st with current := skipped.1 + 1 }

/-- The `case "for"` / `case "while"` / `case "if"` branch. Note that the
    source pushes `isIf: true` for all three keywords, that the
    missing-paren message hardcodes `after "if"` for all three, and that
    the successful push ends in `break`, falling through to the
    loop-bottom `current++` (hence `skipped.1 + 2`). -/
def condCase (tokens : List Token) (st : VState) (token : Token) : VState :=
  match tokens[st.current + 1]? with
  | none =>
    { st with
        diagnostics := st.diagnostics ++
          [createError token
            ("Invalid " ++ token.value ++ " statement. Expected \"(\" after \"if\"")],
        current := st.current + 1 }
  | some t₁ =>
    if t₁.value ≠ "(" then
      { st with
          diagnostics := st.diagnostics ++
            [createError token
              ("Invalid " ++ token.value ++ " statement. Expected \"(\" after \"if\"")],
          current := st.current + 1 }
    else
      let skipped := skipParens tokens tokens.length (st.current + 2) 1
      if 0 < skipped.2 then
        { st with
            diagnostics := st.diagnostics ++
              [createError token
                ("Unclosed parenthesis in " ++ token.value ++ " condition")],
            current := skipped.1 }
      else
        match tokens[skipped.1]? with
        | some tBrace =>
          if tBrace.value = "\x7b" then
            { st with
                blockStack := ⟨true, token, skipped.1, 1⟩ :: st.blockStack,
                current := skipped.1 + 2 }
          else
            { st with
                diagnostics := st.diagnostics ++
                  [createError tBrace
                    ("Expected block starting with \"\x7b\" for " ++ token.value ++ " statement")],
                current := skipped.1 + 1 }
        | none =>
          { st with
              diagnostics := st.diagnostics ++
                [createError token
                  ("Expected block starting with \"\x7b\" for " ++ token.value ++ " statement")],
              current := skipped.1 + 1 }

/-- The `case "else"` branch. The preceding-if check scans the entire
    stack (`blockStack.some`), not just the top. -/
def elseCase (tokens : List Token) (st : VState) (token : Token) : VState :=
  if ¬ st.blockStack.any (fun b => b.isIf) then
    { st with
        diagnostics := st.diagnostics ++
          [createError token "else statement without preceding if statement"],
        current := st.current + 1 }
  else
    match tokens[st.current + 1]? with
    | some tIf =>
      if tIf.value = "if" then
        match tokens[st.current + 2]? with
        | none =>
          { st with
              diagnostics := st.diagnostics ++
                [createError tIf "Invalid else if statement. Expected \"(\" after \"if\""],
              current := st.current + 2 }
        | some tParen =>
          if tParen.value ≠ "(" then
            { st with
                diagnostics := st.diagnostics ++
                  [createError tIf "Invalid else if statement. Expected \"(\" after \"if\""],
                current := st.current + 2 }
          else
            let skipped := skipParens tokens tokens.length (st.current + 3) 1
            if 0 < skipped.2 then
              { st with
                  diagnostics := st.diagnostics ++
                    [createError ((tokens[skipped.1 - 1]?).getD token)
                      "Unclosed parenthesis in else if condition"],
                  current := skipped.1 }
            else elseBlockCheck tokens st token skipped.1
      else elseBlockCheck tokens st token (st.current + 1)
    | none => elseBlockCheck tokens st token (st.current + 1)

/-- One iteration of the `validateSyntax` while loop. Switch cases that
    end in `break` fall through to the `current++` at the bottom of the
    loop, which is why the cursor advances by two after a successful block
    push or a completed `meow`/`meowln` call. -/
def validateStep (tokens : List Token) (st : VState) : VState :=
  match tokens[st.current]? with
  | none => { st with current := st.current + 1 }
  | some token =>
    if token.value = "\x7d" then
      match st.blockStack with
      | [] => { st with current := st.current + 1 }
      | block :: restStack =>
        if block.braceCount - 1 = 0 then
          { st with blockStack := restStack, current := st.current + 1 }
        else
          { st with
              blockStack :=
                { block with braceCount := block.braceCount - 1 } :: restStack,
              current := st.current + 1 }
    else if token.value = "\x7b" then
      match st.blockStack with
      | [] => { st with current := st.current + 1 }
      | block :: restStack =>
        if block.startIndex ≠ st.current then
          { st with
              blockStack :=
                { block with braceCount := block.braceCount + 1 } :: restStack,
              current := st.current + 1 }
        else { st with current := st.current + 1 }
    else if token.type = TokenType.UNKNOWN then
      { st with
          diagnostics := st.diagnostics ++
            [createError token ("Unexpected character: " ++ token.value)],
          current := st.current + 1 }
    else if token.type = TokenType.KEYWORD then
      if token.value = "var" then varCase tokens st token
      else if token.value = "meow" ∨ token.value = "meowln" then meowCase tokens st token
      else if token.value = "for" ∨ token.value = "while" ∨ token.value = "if" then
        condCase tokens st token
      else if token.value = "else" then elseCase tokens st token
      else { st with current := st.current + 1 }
    else if token.type = TokenType.IDENTIFIER ∧
        ¬ st.declaredVariables.contains token.value then
      { st with
          diagnostics := st.diagnostics ++
            [createError token ("Undefined variable \"" ++ token.value ++ "\"")],
          current := st.current + 1 }
    else { st with current := st.current + 1 }

/-- The `validateSyntax` while loop. Every iteration advances the cursor
    by at least one, so fuel `tokens.length` is always sufficient from
    cursor 0. -/
def validateLoop (tokens : List Token) : Nat → VState → VState
  | 0, st => st
  | fuel + 1, st =>
    if st.current < tokens.length then
      validateLoop tokens fuel (validateStep tokens st)
    else st

/-- The state at the end of the main loop of `validateSyntax`. -/
def validateRun (tokens : List Token) : VState :=
  validateLoop tokens tokens.length ⟨[], [], [], 0⟩

def validateSyntax (tokens : List Token) : List Diagnostic :=
  let st := validateRun tokens
  st.diagnostics ++
    ((st.blockStack.reverse.filter fun b => 0 < b.braceCount).map fun b =>
      createError b.startToken
        ("Unclosed block starting at position " ++ toString b.startIndex))

/-! ### Claim theorems -/

/-- C1: the clean-program property fails on the code. The input
    `var x = 1; if (x) { }` consists of a well-formed `var` declaration
    and one balanced `if` block, yet `validateSyntax` returns a spurious
    "Unclosed block" diagnostic: after pushing the block the `break`
    falls through to the loop-bottom `current++`, so the closing brace
    is skipped and the block is never popped. -/
theorem clean_program_fails_on_code :
    validateSyntax (tokenize "var x = 1; if (x) \x7b \x7d") =
      [{ range := { start := ⟨0, 11⟩, «end» := ⟨0, 13⟩ }, severity := 1,
         source := "Catt LSP",
         message := "Unclosed block starting at position 9" }] := by
  decide

/-- C2: evaluation of the code on the two condition-opacity inputs.
    `if (y) { }` with `y` undeclared indeed yields no undefined-variable
    diagnostic (it yields a spurious "Unclosed block" one instead), but
    `if (a) { y; }` yields no diagnostic at all — the first token of the
    block body (`y`) is skipped by the double cursor advance, so the
    claimed diagnostic `Undefined variable "y"` is never emitted. -/
theorem condition_opacity_code_eval :
    validateSyntax (tokenize "if (y) \x7b \x7d") =
      [{ range := { start := ⟨0, 0⟩, «end» := ⟨0, 2⟩ }, severity := 1,
         source := "Catt LSP",
         message := "Unclosed block starting at position 4" }] ∧
    validateSyntax (tokenize "if (a) \x7b y; \x7d") = [] := by
  constructor
  · decide
  · decide

/-- C3 counterexample: for the `while` keyword of `while (x) {` the
    validator pushes a `BlockContext` with `isIf = true`, not
    `isIf = (keyword == "if") = false` as the claim states. -/
theorem while_pushes_isIf_true :
    (validateStep (tokenize "while (x) \x7b")
        { diagnostics := [], declaredVariables := [], blockStack := [],
          current := 0 }).blockStack =
      [{ isIf := true,
         startToken := { type := TokenType.KEYWORD, value := "while",
                         position := ⟨0, 0⟩, length := 5 },
         startIndex := 4, braceCount := 1 }] := by
  decide

/-- C4: the forward-self-reference quirk. `var x = x;` produces no
    diagnostic, because the declared identifier is added to
    `declaredVariables` before the initializer tokens are scanned. -/
theorem forward_self_reference_quirk :
    validateSyntax (tokenize "var x = x;") = [] := by
  decide

/-- A digit is not JavaScript whitespace, so the whitespace branch of the
    lexer never fires on a digit. -/
lemma not_whitespace_of_digit (c : Char) (h : isDigitChar c = true) :
    isJsWhitespace c = false := by
  simp only [isDigitChar, Bool.and_eq_true, decide_eq_true_eq] at h
  simp only [isJsWhitespace, Bool.or_eq_false_iff, Bool.and_eq_false_iff,
    decide_eq_false_iff_not]
  omega

/-- C7: a digit start consumes a maximal run of digits into one NUMBER
    token (no sign, decimal point or exponent handling), and concretely
    `3.14` lexes as NUMBER "3", UNKNOWN ".", NUMBER "14". -/
theorem number_lexing_maximal_digit_run :
    (∀ (fuel : Nat) (c : Char) (cs : List Char) (line character : Nat),
        isDigitChar c = true →
        tokenizeAux (fuel + 1) (c :: cs) line character =
          { type := TokenType.NUMBER,
            value := String.mk ((c :: cs).takeWhile isDigitChar),
            position := ⟨line, character⟩,
            length := ((c :: cs).takeWhile isDigitChar).length }
            :: tokenizeAux fuel ((c :: cs).dropWhile isDigitChar) line
                (character + ((c :: cs).takeWhile isDigitChar).length)) ∧
    tokenize "3.14" =
      [{ type := TokenType.NUMBER, value := "3", position := ⟨0, 0⟩, length := 1 },
       { type := TokenType.UNKNOWN, value := ".", position := ⟨0, 1⟩, length := 1 },
       { type := TokenType.NUMBER, value := "14", position := ⟨0, 2⟩, length := 2 }] := by
  constructor
  · intro fuel c cs line character h
    simp [tokenizeAux, not_whitespace_of_digit c h, h]
  · decide

/-- Witness for C7: the digit-run equation applied at the concrete input
    `['7', '2']`. -/
theorem number_lexing_maximal_digit_run_witness :
    tokenizeAux 2 ['7', '2'] 0 0 =
      [{ type := TokenType.NUMBER, value := "72", position := ⟨0, 0⟩,
         length := 2 }] := by
  have h := number_lexing_maximal_digit_run.1 1 '7' ['2'] 0 0 (by decide)
  exact h.trans (by decide)

/-- Every token produced by the lexer has a type other than PUNCTUATION:
    each emitting branch uses NUMBER, KEYWORD, IDENTIFIER, STRING,
    OPERATOR or UNKNOWN. -/
lemma tokenizeAux_type_ne_punct :
    ∀ (fuel : Nat) (cs : List Char) (line character : Nat) (t : Token),
      t ∈ tokenizeAux fuel cs line character →
      t.type ≠ TokenType.PUNCTUATION := by
  intro fuel
  induction fuel with
  | zero => intro cs line character t ht; simp [tokenizeAux] at ht
  | succ n ih =>
    intro cs line character t ht
    cases cs with
    | nil => simp [tokenizeAux] at ht
    | cons c cs =>
      simp only [tokenizeAux] at ht
      repeat' split at ht
      all_goals try exact ih _ _ _ _ ht
      all_goals
        rcases List.mem_cons.mp ht with h | h
        case _ h =>
          subst h
          dsimp only
          try split
          all_goals decide
        case _ h => exact ih _ _ _ _ h

/-- C9: the PUNCTUATION member of the TokenType variant is unreachable in
    the lexer's output — no token emitted by `tokenize` ever has type
    PUNCTUATION (braces, brackets, parentheses and semicolons are all
    emitted as OPERATOR tokens). -/
theorem no_punctuation_token (s : String) (t : Token) (ht : t ∈ tokenize s) :
    t.type ≠ TokenType.PUNCTUATION :=
  tokenizeAux_type_ne_punct _ _ _ _ _ ht

/-- Witness for C9 at the token NUMBER "3" of the input `3.14`. -/
theorem no_punctuation_token_witness :
    ({ type := TokenType.NUMBER, value := "3", position := ⟨0, 0⟩,
       length := 1 } : Token) ∈ tokenize "3.14" ∧
    ({ type := TokenType.NUMBER, value := "3", position := ⟨0, 0⟩,
       length := 1 } : Token).type ≠ TokenType.PUNCTUATION :=
  ⟨by decide, no_punctuation_token "3.14" _ (by decide)⟩

lemma data_mk (l : List Char) : (String.mk l).data = l := rfl

lemma length_dropWhile_le (p : Char → Bool) (l : List Char) :
    (l.dropWhile p).length ≤ l.length := by
  have h := congrArg List.length (List.takeWhile_append_dropWhile (p := p) (l := l))
  simp only [List.length_append] at h
  omega

lemma scanSegsAux_filterMap :
    ∀ (fuel : Nat) (cs : List Char) (line character : Nat),
      (scanSegsAux fuel cs line character).filterMap segToken =
        tokenizeAux fuel cs line character := by
  intro fuel
  induction fuel with
  | zero => intro cs line character; simp [scanSegsAux, tokenizeAux]
  | succ n ih =>
    intro cs line character
    cases cs with
    | nil => simp [scanSegsAux, tokenizeAux]
    | cons c cs =>
      simp only [scanSegsAux, tokenizeAux]
      repeat' split
      all_goals simp [List.filterMap_cons, segToken, ih]


lemma identCont_of_identStart (c : Char) (h : isIdentStartChar c = true) :
    isIdentContChar c = true := by
  simp [isIdentContChar, h]

lemma scanSegsAux_nil (fuel line character : Nat) :
    scanSegsAux fuel [] line character = [] := by
  cases fuel <;> simp [scanSegsAux]

lemma scanSegsAux_covers :
    ∀ (fuel : Nat) (cs : List Char) (line character : Nat),
      cs.length ≤ fuel →
      ((scanSegsAux fuel cs line character).map segChars).flatten = cs := by
  intro fuel
  induction fuel with
  | zero =>
    intro cs line character hlen
    have hnil : cs = [] := List.eq_nil_of_length_eq_zero (Nat.le_zero.mp hlen)
    subst hnil
    simp [scanSegsAux]
  | succ n ih =>
    intro cs line character hlen
    cases cs with
    | nil => simp [scanSegsAux]
    | cons c cs =>
      have hcs : cs.length ≤ n := by simpa using hlen
      have hrecCs : ∀ (l ch : Nat),
          ((scanSegsAux n cs l ch).map segChars).flatten = cs :=
        fun l ch => ih cs l ch hcs
      by_cases h1 : isJsWhitespace c = true
      · by_cases h2 : c = '\n'
        · subst h2
          simp [scanSegsAux, h1, segChars, hrecCs]
        · simp [scanSegsAux, h1, h2, segChars, hrecCs]
      · by_cases h2 : isDigitChar c = true
        · have hdl : ((c :: cs).dropWhile isDigitChar).length ≤ n := by
            rw [List.dropWhile_cons_of_pos h2]
            exact le_trans (length_dropWhile_le _ _) hcs
          have hrec : ∀ (l ch : Nat),
              ((scanSegsAux n ((c :: cs).dropWhile isDigitChar) l ch).map segChars).flatten =
                (c :: cs).dropWhile isDigitChar :=
            fun l ch => ih _ l ch hdl
          simp only [scanSegsAux, h1, h2, Bool.false_eq_true, if_false, if_true,
            List.map_cons, List.flatten_cons, segChars, data_mk, hrec]
          exact List.takeWhile_append_dropWhile _ _
        · by_cases h3 : isIdentStartChar c = true
          · have hcont := identCont_of_identStart c h3
            have hdl : ((c :: cs).dropWhile isIdentContChar).length ≤ n := by
              rw [List.dropWhile_cons_of_pos hcont]
              exact le_trans (length_dropWhile_le _ _) hcs
            have hrec : ∀ (l ch : Nat),
                ((scanSegsAux n ((c :: cs).dropWhile isIdentContChar) l ch).map segChars).flatten =
                  (c :: cs).dropWhile isIdentContChar :=
              fun l ch => ih _ l ch hdl
            simp only [scanSegsAux, h1, h2, h3, Bool.false_eq_true, if_false, if_true,
              List.map_cons, List.flatten_cons, segChars, data_mk, hrec]
            exact List.takeWhile_append_dropWhile _ _
          · by_cases h4 : c = '"'
            · subst h4
              have hsplit := List.takeWhile_append_dropWhile
                (p := fun d => !(d = '"')) (l := cs)
              cases hrest : cs.dropWhile (fun d => !(d = '"')) with
              | nil =>
                rw [hrest, List.append_nil] at hsplit
                simp [scanSegsAux, h1, h2, h3, hrest, segChars, data_mk,
                  scanSegsAux_nil, hsplit]
              | cons d rest2 =>
                have hr1len : (d :: rest2).length ≤ cs.length := by
                  rw [← hrest]; exact length_dropWhile_le _ _
                by_cases h5 : d = '"'
                · subst h5
                  have hdl : rest2.length ≤ n := by
                    simp at hr1len; omega
                  have hrec : ∀ (l ch : Nat),
                      ((scanSegsAux n rest2 l ch).map segChars).flatten = rest2 :=
                    fun l ch => ih rest2 l ch hdl
                  simp [scanSegsAux, h1, h2, h3, hrest, segChars, data_mk, hrec]
                  conv_rhs => rw [← hsplit, hrest]
                · have hdl : (d :: rest2).length ≤ n := le_trans hr1len hcs
                  have hrec : ∀ (l ch : Nat),
                      ((scanSegsAux n (d :: rest2) l ch).map segChars).flatten =
                        d :: rest2 :=
                    fun l ch => ih _ l ch hdl
                  simp [scanSegsAux, h1, h2, h3, h5, hrest, segChars, data_mk, hrec]
                  conv_rhs => rw [← hsplit, hrest]
            · by_cases h6 : (String.mk [c]) ∈ operators
              · cases cs with
                | nil =>
                  simp [scanSegsAux, h1, h2, h3, h4, h6, segChars, data_mk,
                    scanSegsAux_nil]
                | cons d rest2 =>
                  by_cases h7 : (String.mk [c, d]) ∈ operators
                  · have hdl : rest2.length ≤ n := by simp at hcs; omega
                    have hrec : ∀ (l ch : Nat),
                        ((scanSegsAux n rest2 l ch).map segChars).flatten = rest2 :=
                      fun l ch => ih rest2 l ch hdl
                    simp [scanSegsAux, h1, h2, h3, h4, h6, h7, segChars, data_mk, hrec]
                  · simp [scanSegsAux, h1, h2, h3, h4, h6, h7, segChars, data_mk, hrecCs]
              · simp [scanSegsAux, h1, h2, h3, h4, h6, segChars, data_mk, hrecCs]


lemma tokenizeAux_nil (fuel line character : Nat) :
    tokenizeAux fuel [] line character = [] := by
  cases fuel <;> simp [tokenizeAux]

lemma tokenizeAux_fuel_stable :
    ∀ (fuel₁ fuel₂ : Nat) (cs : List Char) (line character : Nat),
      cs.length ≤ fuel₁ → cs.length ≤ fuel₂ →
      tokenizeAux fuel₁ cs line character = tokenizeAux fuel₂ cs line character := by
  intro fuel₁
  induction fuel₁ with
  | zero =>
    intro fuel₂ cs line character hlen1 hlen2
    have hnil : cs = [] := List.eq_nil_of_length_eq_zero (Nat.le_zero.mp hlen1)
    subst hnil
    simp [tokenizeAux_nil]
  | succ n ih =>
    intro fuel₂ cs line character hlen1 hlen2
    cases cs with
    | nil => simp [tokenizeAux_nil]
    | cons c cs =>
      cases fuel₂ with
      | zero => simp at hlen2
      | succ m =>
        have hcs1 : cs.length ≤ n := by simpa using hlen1
        have hcs2 : cs.length ≤ m := by simpa using hlen2
        have hrecCs : ∀ (l ch : Nat), tokenizeAux n cs l ch = tokenizeAux m cs l ch :=
          fun l ch => ih m cs l ch hcs1 hcs2
        by_cases h1 : isJsWhitespace c = true
        · by_cases h2 : c = '\n'
          · subst h2
            simp [tokenizeAux, h1, hrecCs]
          · simp [tokenizeAux, h1, h2, hrecCs]
        · by_cases h2 : isDigitChar c = true
          · have hdl1 : (cs.dropWhile isDigitChar).length ≤ n :=
              le_trans (length_dropWhile_le _ _) hcs1
            have hdl2 : (cs.dropWhile isDigitChar).length ≤ m :=
              le_trans (length_dropWhile_le _ _) hcs2
            have hrec : ∀ (l ch : Nat),
                tokenizeAux n (cs.dropWhile isDigitChar) l ch =
                  tokenizeAux m (cs.dropWhile isDigitChar) l ch :=
              fun l ch => ih m _ l ch hdl1 hdl2
            simp [tokenizeAux, h1, h2, hrec]
          · by_cases h3 : isIdentStartChar c = true
            · have hcont := identCont_of_identStart c h3
              have hdl1 : (cs.dropWhile isIdentContChar).length ≤ n :=
                le_trans (length_dropWhile_le _ _) hcs1
              have hdl2 : (cs.dropWhile isIdentContChar).length ≤ m :=
                le_trans (length_dropWhile_le _ _) hcs2
              have hrec : ∀ (l ch : Nat),
                  tokenizeAux n (cs.dropWhile isIdentContChar) l ch =
                    tokenizeAux m (cs.dropWhile isIdentContChar) l ch :=
                fun l ch => ih m _ l ch hdl1 hdl2
              simp [tokenizeAux, h1, h2, h3, hcont, hrec]
            · by_cases h4 : c = '"'
              · subst h4
                cases hrest : cs.dropWhile (fun d => !(d = '"')) with
                | nil =>
                  simp [tokenizeAux, h1, h2, h3, hrest, tokenizeAux_nil]
                | cons d rest2 =>
                  have hr1len : (d :: rest2).length ≤ cs.length := by
                    rw [← hrest]; exact length_dropWhile_le _ _
                  by_cases h5 : d = '"'
                  · subst h5
                    have hdl1 : rest2.length ≤ n := by
                      simp at hr1len; omega
                    have hdl2 : rest2.length ≤ m := by
                      simp at hr1len; omega
                    have hrec : ∀ (l ch : Nat),
                        tokenizeAux n rest2 l ch = tokenizeAux m rest2 l ch :=
                      fun l ch => ih m rest2 l ch hdl1 hdl2
                    simp [tokenizeAux, h1, h2, h3, hrest, hrec]
                  · have hdl1 : (d :: rest2).length ≤ n := le_trans hr1len hcs1
                    have hdl2 : (d :: rest2).length ≤ m := le_trans hr1len hcs2
                    have hrec : ∀ (l ch : Nat),
                        tokenizeAux n (d :: rest2) l ch = tokenizeAux m (d :: rest2) l ch :=
                      fun l ch => ih m _ l ch hdl1 hdl2
                    simp [tokenizeAux, h1, h2, h3, h5, hrest, hrec]
              · by_cases h6 : (String.mk [c]) ∈ operators
                · cases cs with
                  | nil =>
                    simp [tokenizeAux, h1, h2, h3, h4, h6, tokenizeAux_nil]
                  | cons d rest2 =>
                    by_cases h7 : (String.mk [c, d]) ∈ operators
                    · have hdl1 : rest2.length ≤ n := by simp at hcs1; omega
                      have hdl2 : rest2.length ≤ m := by simp at hcs2; omega
                      have hrec : ∀ (l ch : Nat),
                          tokenizeAux n rest2 l ch = tokenizeAux m rest2 l ch :=
                        fun l ch => ih m rest2 l ch hdl1 hdl2
                      simp [tokenizeAux, h1, h2, h3, h4, h6, h7, hrec]
                    · simp [tokenizeAux, h1, h2, h3, h4, h6, h7, hrecCs]
                · simp [tokenizeAux, h1, h2, h3, h4, h6, hrecCs]


/-- C5: coverage round-trip of the lexer. For every input string, the
    instrumented scan reconstructs the input exactly — concatenating the
    emitted token values in order, interleaved at their original positions
    with the skipped whitespace characters, gives back the string — and
    dropping the whitespace segments gives exactly `tokenize s`. -/
theorem lexer_coverage (s : String) :
    String.mk (((scanSegs s).map segChars).flatten) = s ∧
    (scanSegs s).filterMap segToken = tokenize s := by
  constructor
  · have h := scanSegsAux_covers s.data.length s.data 0 0 (le_refl _)
    exact (congrArg String.mk (by simpa using h)).trans rfl
  · exact scanSegsAux_filterMap _ _ _ _

/-- C6: lexer totality. The scan loop consumes at least one character per
    iteration, so it stabilizes after at most `s.length` iterations: any
    extra fuel beyond the input length leaves the result unchanged, i.e.
    `tokenize` terminates with a well-defined (possibly empty) token list
    on every input. -/
theorem lexer_totality (s : String) (extra : Nat) :
    tokenizeAux (s.data.length + extra) s.data 0 0 = tokenize s :=
  tokenizeAux_fuel_stable _ _ _ _ _ (Nat.le_add_right _ _) (le_refl _)

lemma varCase_blockStack (tokens : List Token) (st : VState) (token : Token) :
    (varCase tokens st token).blockStack = st.blockStack := by
  simp only [varCase]
  repeat' split
  all_goals rfl

lemma meowCase_blockStack (tokens : List Token) (st : VState) (token : Token) :
    (meowCase tokens st token).blockStack = st.blockStack := by
  simp only [meowCase]
  repeat' split
  all_goals rfl

lemma condCase_blockStack (tokens : List Token) (st : VState) (token : Token) :
    (condCase tokens st token).blockStack = st.blockStack ∨
    ∃ idx, (condCase tokens st token).blockStack =
      ⟨true, token, idx, 1⟩ :: st.blockStack := by
  simp only [condCase]
  repeat' split
  all_goals first
    | exact Or.inl rfl
    | exact Or.inr ⟨_, rfl⟩

lemma elseBlockCheck_blockStack (tokens : List Token) (st : VState)
    (token : Token) (c : Nat) :
    (elseBlockCheck tokens st token c).blockStack = st.blockStack ∨
    ∃ idx, (elseBlockCheck tokens st token c).blockStack =
      ⟨false, token, idx, 1⟩ :: st.blockStack := by
  simp only [elseBlockCheck]
  repeat' split
  all_goals first
    | exact Or.inl rfl
    | exact Or.inr ⟨_, rfl⟩

lemma elseCase_blockStack (tokens : List Token) (st : VState) (token : Token) :
    (elseCase tokens st token).blockStack = st.blockStack ∨
    ∃ idx, (elseCase tokens st token).blockStack =
      ⟨false, token, idx, 1⟩ :: st.blockStack := by
  simp only [elseCase]
  repeat' split
  all_goals first
    | exact Or.inl rfl
    | exact Or.inr ⟨_, rfl⟩
    | exact elseBlockCheck_blockStack tokens st token _


lemma validateStep_inv (tokens : List Token) (st : VState)
    (hinv : ∀ b ∈ st.blockStack, (1 : Int) ≤ b.braceCount) :
    ∀ b ∈ (validateStep tokens st).blockStack, (1 : Int) ≤ b.braceCount := by
  intro b hb
  unfold validateStep at hb
  split at hb
  · exact hinv b hb
  · rename_i token htok
    split at hb
    · -- token.value = "\x7d"
      split at hb
      · exact hinv b hb
      · rename_i block rest heq
        have hblock : (1 : Int) ≤ block.braceCount := by
          apply hinv; rw [heq]; exact List.mem_cons_self _ _
        split at hb
        · exact hinv b (by rw [heq]; exact List.mem_cons_of_mem _ hb)
        · rename_i hbc
          rcases List.mem_cons.mp hb with rfl | hb2
          · dsimp only
            omega
          · exact hinv b (by rw [heq]; exact List.mem_cons_of_mem _ hb2)
    · split at hb
      · -- token.value = "\x7b"
        split at hb
        · exact hinv b hb
        · rename_i block rest heq
          have hblock : (1 : Int) ≤ block.braceCount := by
            apply hinv; rw [heq]; exact List.mem_cons_self _ _
          split at hb
          · rcases List.mem_cons.mp hb with rfl | hb2
            · dsimp only
              omega
            · exact hinv b (by rw [heq]; exact List.mem_cons_of_mem _ hb2)
          · exact hinv b hb
      · split at hb
        · -- UNKNOWN
          exact hinv b hb
        · split at hb
          · -- KEYWORD
            split at hb
            · -- var
              rw [varCase_blockStack] at hb
              exact hinv b hb
            · split at hb
              · -- meow / meowln
                rw [meowCase_blockStack] at hb
                exact hinv b hb
              · split at hb
                · -- for / while / if
                  rcases condCase_blockStack tokens st token with heq | ⟨idx, heq⟩
                  · rw [heq] at hb
                    exact hinv b hb
                  · rw [heq] at hb
                    rcases List.mem_cons.mp hb with rfl | hb2
                    · dsimp only
                      omega
                    · exact hinv b hb2
                · split at hb
                  · -- else
                    rcases elseCase_blockStack tokens st token with heq | ⟨idx, heq⟩
                    · rw [heq] at hb
                      exact hinv b hb
                    · rw [heq] at hb
                      rcases List.mem_cons.mp hb with rfl | hb2
                      · dsimp only
                        omega
                      · exact hinv b hb2
                  · exact hinv b hb
          · split at hb
            · exact hinv b hb
            · exact hinv b hb

lemma validateLoop_inv (tokens : List Token) :
    ∀ (fuel : Nat) (st : VState),
      (∀ b ∈ st.blockStack, (1 : Int) ≤ b.braceCount) →
      ∀ b ∈ (validateLoop tokens fuel st).blockStack, (1 : Int) ≤ b.braceCount := by
  intro fuel
  induction fuel with
  | zero => intro st hinv; simpa [validateLoop] using hinv
  | succ n ih =>
    intro st hinv b hb
    rw [validateLoop] at hb
    split at hb
    · exact ih (validateStep tokens st) (validateStep_inv tokens st hinv) b hb
    · exact hinv b hb


lemma scanVarInit_diags (tokens : List Token) (declared : List String) :
    ∀ (fuel current : Nat) (d : Diagnostic),
      d ∈ (scanVarInit tokens declared fuel current).1 →
      ∃ t m, d = createError t m := by
  intro fuel
  induction fuel with
  | zero => intro current d hd; simp [scanVarInit] at hd
  | succ n ih =>
    intro current d hd
    rw [scanVarInit] at hd
    split at hd
    · simp at hd
    · split at hd
      · simp at hd
      · split at hd
        · rcases List.mem_cons.mp hd with rfl | hd2
          · exact ⟨_, _, rfl⟩
          · exact ih _ d hd2
        · exact ih _ d hd

lemma varCase_diags (tokens : List Token) (st : VState) (token : Token) :
    ∀ d ∈ (varCase tokens st token).diagnostics,
      d ∈ st.diagnostics ∨ ∃ t m, d = createError t m := by
  intro d hd
  simp only [varCase] at hd
  repeat' split at hd
  all_goals simp only [List.mem_append, List.mem_singleton] at hd
  all_goals
    first
    | (rcases hd with hd | rfl
       · exact Or.inl hd
       · exact Or.inr ⟨_, _, rfl⟩)
    | (rcases hd with hd | hd
       · exact Or.inl hd
       · exact Or.inr (scanVarInit_diags tokens _ _ _ d hd))
    | (rcases hd with (hd | hd) | rfl
       · exact Or.inl hd
       · exact Or.inr (scanVarInit_diags tokens _ _ _ d hd)
       · exact Or.inr ⟨_, _, rfl⟩)

lemma meowCase_diags (tokens : List Token) (st : VState) (token : Token) :
    ∀ d ∈ (meowCase tokens st token).diagnostics,
      d ∈ st.diagnostics ∨ ∃ t m, d = createError t m := by
  intro d hd
  simp only [meowCase] at hd
  repeat' split at hd
  all_goals simp only [List.mem_append, List.mem_singleton] at hd
  all_goals
    first
    | exact Or.inl hd
    | (rcases hd with hd | rfl
       · exact Or.inl hd
       · exact Or.inr ⟨_, _, rfl⟩)

lemma condCase_diags (tokens : List Token) (st : VState) (token : Token) :
    ∀ d ∈ (condCase tokens st token).diagnostics,
      d ∈ st.diagnostics ∨ ∃ t m, d = createError t m := by
  intro d hd
  simp only [condCase] at hd
  repeat' split at hd
  all_goals simp only [List.mem_append, List.mem_singleton] at hd
  all_goals
    first
    | exact Or.inl hd
    | (rcases hd with hd | rfl
       · exact Or.inl hd
       · exact Or.inr ⟨_, _, rfl⟩)

lemma elseBlockCheck_diags (tokens : List Token) (st : VState) (token : Token)
    (c : Nat) :
    ∀ d ∈ (elseBlockCheck tokens st token c).diagnostics,
      d ∈ st.diagnostics ∨ ∃ t m, d = createError t m := by
  intro d hd
  simp only [elseBlockCheck] at hd
  repeat' split at hd
  all_goals simp only [List.mem_append, List.mem_singleton] at hd
  all_goals
    first
    | exact Or.inl hd
    | (rcases hd with hd | rfl
       · exact Or.inl hd
       · exact Or.inr ⟨_, _, rfl⟩)

lemma elseCase_diags (tokens : List Token) (st : VState) (token : Token) :
    ∀ d ∈ (elseCase tokens st token).diagnostics,
      d ∈ st.diagnostics ∨ ∃ t m, d = createError t m := by
  intro d hd
  simp only [elseCase] at hd
  repeat' split at hd
  all_goals
    first
    | exact elseBlockCheck_diags tokens st token _ d hd
    | (simp only [List.mem_append, List.mem_singleton] at hd
       first
       | exact Or.inl hd
       | (rcases hd with hd | rfl
          · exact Or.inl hd
          · exact Or.inr ⟨_, _, rfl⟩))

lemma validateStep_diags (tokens : List Token) (st : VState) :
    ∀ d ∈ (validateStep tokens st).diagnostics,
      d ∈ st.diagnostics ∨ ∃ t m, d = createError t m := by
  intro d hd
  unfold validateStep at hd
  repeat' split at hd
  all_goals
    first
    | exact Or.inl hd
    | exact varCase_diags tokens st _ d hd
    | exact meowCase_diags tokens st _ d hd
    | exact condCase_diags tokens st _ d hd
    | exact elseCase_diags tokens st _ d hd
    | (simp only [List.mem_append, List.mem_singleton] at hd
       rcases hd with hd | rfl
       · exact Or.inl hd
       · exact Or.inr ⟨_, _, rfl⟩)

lemma validateLoop_diags (tokens : List Token) :
    ∀ (fuel : Nat) (st : VState),
      ∀ d ∈ (validateLoop tokens fuel st).diagnostics,
        d ∈ st.diagnostics ∨ ∃ t m, d = createError t m := by
  intro fuel
  induction fuel with
  | zero => intro st d hd; rw [validateLoop] at hd; exact Or.inl hd
  | succ n ih =>
    intro st d hd
    rw [validateLoop] at hd
    split at hd
    · rcases ih (validateStep tokens st) d hd with h | h
      · exact validateStep_diags tokens st d h
      · exact Or.inr h
    · exact Or.inl hd

lemma validateSyntax_diags (tokens : List Token) :
    ∀ d ∈ validateSyntax tokens, ∃ t m, d = createError t m := by
  intro d hd
  simp only [ validateSyntax] at hd
  rcases List.mem_append.mp hd with hd | hd
  · rcases validateLoop_diags tokens tokens.length ⟨[], [], [], 0⟩ d hd with h | h
    · simp at h
    · exact h
  · rcases List.mem_map.mp hd with ⟨blk, _, rfl⟩
    exact ⟨_, _, rfl⟩


lemma skipParens_le (tokens : List Token) :
    ∀ (fuel current : Nat) (pc : Int),
      current ≤ (skipParens tokens fuel current pc).1 := by
  intro fuel
  induction fuel with
  | zero => intro current pc; simp [skipParens]
  | succ n ih =>
    intro current pc
    rw [skipParens]
    split
    · split
      · simp
      · exact le_trans (Nat.le_succ _) (ih (current + 1) _)
    · simp

lemma elseBlockCheck_current_ge (tokens : List Token) (st : VState)
    (token : Token) (c : Nat) :
    c + 1 ≤ (elseBlockCheck tokens st token c).current := by
  simp only [elseBlockCheck]
  repeat' split
  all_goals dsimp only
  all_goals omega

lemma elseCase_current_ge (tokens : List Token) (st : VState) (token : Token)
    (hany : st.blockStack.any (fun b => b.isIf) = true) :
    st.current + 2 ≤ (elseCase tokens st token).current := by
  simp [elseCase, hany]
  repeat' split
  all_goals try dsimp only
  all_goals
    have ha := skipParens_le tokens tokens.length (st.current + 3) 1
  all_goals
    have hb := elseBlockCheck_current_ge tokens st token
      (skipParens tokens tokens.length (st.current + 3) 1).1
  all_goals
    have hc := elseBlockCheck_current_ge tokens st token (st.current + 1)
  all_goals omega

lemma elseCase_diag_iff (tokens : List Token) (st : VState) (token : Token) :
    ((elseCase tokens st token).diagnostics =
        st.diagnostics ++
          [createError token "else statement without preceding if statement"] ∧
      (elseCase tokens st token).current = st.current + 1)
      ↔ st.blockStack.any (fun b => b.isIf) = false := by
  cases hany : st.blockStack.any (fun b => b.isIf) with
  | false => simp [elseCase, hany]
  | true =>
    have hge := elseCase_current_ge tokens st token hany
    constructor
    · rintro ⟨-, hcur⟩
      exfalso
      omega
    · intro h
      exact absurd h (by decide)

lemma validateStep_eq_condCase (tokens : List Token) (st : VState) (token : Token)
    (htok : tokens[st.current]? = some token)
    (htype : token.type = TokenType.KEYWORD)
    (hval : token.value = "if" ∨ token.value = "while" ∨ token.value = "for") :
    validateStep tokens st = condCase tokens st token := by
  have h1 : ¬(token.value = "\x7d") := by rcases hval with h | h | h <;> (rw [h]; decide)
  have h2 : ¬(token.value = "\x7b") := by rcases hval with h | h | h <;> (rw [h]; decide)
  have h3 : ¬(token.type = TokenType.UNKNOWN) := by rw [htype]; decide
  have h4 : ¬(token.value = "var") := by rcases hval with h | h | h <;> (rw [h]; decide)
  have h5 : ¬(token.value = "meow" ∨ token.value = "meowln") := by
    rcases hval with h | h | h <;> (rw [h]; decide)
  have h6 : token.value = "for" ∨ token.value = "while" ∨ token.value = "if" := by
    tauto
  unfold validateStep
  rw [htok]
  simp [h1, h2, h3, htype, h4, h5, h6]

lemma validateStep_eq_elseCase (tokens : List Token) (st : VState) (token : Token)
    (htok : tokens[st.current]? = some token)
    (htype : token.type = TokenType.KEYWORD)
    (hval : token.value = "else") :
    validateStep tokens st = elseCase tokens st token := by
  have h1 : ¬(token.value = "\x7d") := by rw [hval]; decide
  have h2 : ¬(token.value = "\x7b") := by rw [hval]; decide
  have h3 : ¬(token.type = TokenType.UNKNOWN) := by rw [htype]; decide
  have h4 : ¬(token.value = "var") := by rw [hval]; decide
  have h5 : ¬(token.value = "meow" ∨ token.value = "meowln") := by rw [hval]; decide
  have h6 : ¬(token.value = "for" ∨ token.value = "while" ∨ token.value = "if") := by
    rw [hval]; decide
  unfold validateStep
  rw [htok]
  simp [h1, h2, h3, htype, h4, h5, h6, hval]


/-- C3 (amended): for every `if`, `while` or `for` keyword token, a
    block pushed by the validator step has `isIf = true` — for all three
    keywords, not only for `if` (the source hardcodes `isIf: true`) — and
    an `else` token emits the diagnostic "else statement without preceding
    if statement" (advancing the cursor by exactly one) exactly when no
    block currently on the stack has `isIf = true`. -/
theorem block_isIf_amended (tokens : List Token) (st : VState) (token : Token)
    (htok : tokens[st.current]? = some token)
    (htype : token.type = TokenType.KEYWORD) :
    ((token.value = "if" ∨ token.value = "while" ∨ token.value = "for") →
      (validateStep tokens st).blockStack = st.blockStack ∨
      ∃ idx, (validateStep tokens st).blockStack =
        { isIf := true, startToken := token, startIndex := idx,
          braceCount := 1 } :: st.blockStack) ∧
    (token.value = "else" →
      (((validateStep tokens st).diagnostics =
          st.diagnostics ++
            [createError token "else statement without preceding if statement"] ∧
        (validateStep tokens st).current = st.current + 1)
        ↔ st.blockStack.any (fun b => b.isIf) = false)) := by
  constructor
  · intro hval
    rw [validateStep_eq_condCase tokens st token htok htype hval]
    exact condCase_blockStack tokens st token
  · intro hval
    rw [validateStep_eq_elseCase tokens st token htok htype hval]
    exact elseCase_diag_iff tokens st token

/-- Witness for the amended C3, at the `while` keyword of `while (x) {`. -/
theorem block_isIf_amended_witness :
    (validateStep (tokenize "while (x) \x7b")
        { diagnostics := [], declaredVariables := [], blockStack := [],
          current := 0 }).blockStack = ([] : List BlockContext) ∨
    ∃ idx, (validateStep (tokenize "while (x) \x7b")
        { diagnostics := [], declaredVariables := [], blockStack := [],
          current := 0 }).blockStack =
      [{ isIf := true,
         startToken := { type := TokenType.KEYWORD, value := "while",
                         position := ⟨0, 0⟩, length := 5 },
         startIndex := idx, braceCount := 1 }] :=
  (block_isIf_amended (tokenize "while (x) \x7b")
      { diagnostics := [], declaredVariables := [], blockStack := [], current := 0 }
      { type := TokenType.KEYWORD, value := "while", position := ⟨0, 0⟩, length := 5 }
      (by decide) (by decide)).1 (Or.inr (Or.inl rfl))

/-- C8: every diagnostic returned by `validateSyntax`, on every token
    sequence, has severity 1 (Error), source "Catt LSP", and a range
    running from some anchor token's position to the same line at
    `character + token.length`. -/
theorem diagnostic_shape_invariant (tokens : List Token) (d : Diagnostic)
    (hd : d ∈ validateSyntax tokens) :
    d.severity = 1 ∧ d.source = "Catt LSP" ∧
    ∃ t : Token, d.range.start = t.position ∧
      d.range.«end» = ⟨t.position.line, t.position.character + t.length⟩ := by
  obtain ⟨t, m, rfl⟩ := validateSyntax_diags tokens d hd
  exact ⟨rfl, rfl, t, rfl, rfl⟩

/-- Witness for C8 at the diagnostic produced for the input `?`. -/
theorem diagnostic_shape_invariant_witness :
    ({ range := { start := ⟨0, 0⟩, «end» := ⟨0, 1⟩ }, severity := 1,
       source := "Catt LSP",
       message := "Unexpected character: ?" } : Diagnostic).severity = 1 ∧
    ({ range := { start := ⟨0, 0⟩, «end» := ⟨0, 1⟩ }, severity := 1,
       source := "Catt LSP",
       message := "Unexpected character: ?" } : Diagnostic).source = "Catt LSP" ∧
    ∃ t : Token,
      ({ range := { start := ⟨0, 0⟩, «end» := ⟨0, 1⟩ }, severity := 1,
         source := "Catt LSP",
         message := "Unexpected character: ?" } : Diagnostic).range.start =
        t.position ∧
      ({ range := { start := ⟨0, 0⟩, «end» := ⟨0, 1⟩ }, severity := 1,
         source := "Catt LSP",
         message := "Unexpected character: ?" } : Diagnostic).range.«end» =
        ⟨t.position.line, t.position.character + t.length⟩ :=
  diagnostic_shape_invariant (tokenize "?") _ (by decide)

/-- C10: the block-stack invariant. Every block on the stack keeps
    `braceCount ≥ 1` through any number of validator steps (a `}`
    decrements only the top block and pops it exactly when the count
    reaches 0), and consequently the end-of-pass guard `braceCount > 0`
    holds for every block still on the stack when the main loop ends. -/
theorem block_stack_invariant :
    (∀ (tokens : List Token) (fuel : Nat) (st : VState),
        (∀ b ∈ st.blockStack, (1 : Int) ≤ b.braceCount) →
        ∀ b ∈ (validateLoop tokens fuel st).blockStack, (1 : Int) ≤ b.braceCount) ∧
    ∀ (tokens : List Token) (b : BlockContext),
      b ∈ (validateRun tokens).blockStack → 0 < b.braceCount := by
  constructor
  · exact fun tokens fuel st h => validateLoop_inv tokens fuel st h
  · intro tokens b hb
    have h := validateLoop_inv tokens tokens.length
      { diagnostics := [], declaredVariables := [], blockStack := [], current := 0 }
      (by simp) b hb
    omega

/-- Witness for C10 at the unclosed block of `if (x) {`. -/
theorem block_stack_invariant_witness :
    (0 : Int) <
      ({ isIf := true,
         startToken := { type := TokenType.KEYWORD, value := "if",
                         position := ⟨0, 0⟩, length := 2 },
         startIndex := 4, braceCount := 1 } : BlockContext).braceCount :=
  block_stack_invariant.2 (tokenize "if (x) \x7b") _ (by decide)

end CattLsp
